import Mathlib

/-!
Shallow embedding of the `TSCompiler` class from `src/TSCompiler.ts`.

The class orchestrates: lazy project-root discovery (`getAppRootFolderPath`),
lazy cache construction (`initCache`), path canonicalization
(`absolutePathToRelative` / `resolvePathToFile`), cache-key construction
(`getCacheParams`), disk reads (`readFile`), transpilation with diagnostics
(`compileTSFile`), and the `compile` orchestrator.

External collaborators (the file system, `findPathToFile`, the injected
TypeScript instance `ts.transpileModule` / `ts.formatDiagnostics`, and the
`InFilesCache` store) are modelled as an explicit environment `Env` and an
explicit store `CacheStore`. Instance state (`appRootPath`, `diskCache`) is
threaded explicitly, and every observable effect is recorded in a trace of
`Event`s so that frame conditions (number of disk reads, cache reads, cache
writes, compiler invocations, root discoveries) are provable.
-/

/-- Result of `ts.transpileModule`: output text plus a diagnostics list
(diagnostics are modelled abstractly as strings). -/
structure TranspileResult where
  outputText : String
  diagnostics : List String
deriving DecidableEq, Repr

/-- Environment of external collaborators:
`fs` models `readFileSync` (by the exact path string handed to it; `none`
means the read fails with `ENOENT`); `rootPath` is the `dirPath` returned by
`findPathToFile("package.json")`; `transpile` models `ts.transpileModule`
with the fixed compiler options of the instance; `formatDiags` models
`ts.formatDiagnostics` with the host built from the file path. -/
structure Env where
  fs : String → Option String
  rootPath : String
  transpile : String → TranspileResult
  formatDiags : String → List String → String

/-- Mutable instance state of a `TSCompiler` object: the memoized
`appRootPath` field and whether `diskCache` has been constructed. -/
structure State where
  appRootPath : Option String
  diskCacheInit : Bool
deriving DecidableEq, Repr

/-- Field initializers of the class: `appRootPath = null`, `diskCache = null`. -/
def state0 : State := { appRootPath := none, diskCacheInit := false }

/-- The `CacheParams` structure handed to `InFilesCache.get` / `set`. -/
structure CacheParams where
  fileContent : String
  fileExtension : String
  filePath : String
deriving DecidableEq, Repr

/-- Contents of the external `InFilesCache` store, newest entry first. -/
abbrev CacheStore := List (CacheParams × String)

/-- Lookup in the cache store (`InFilesCache.get`). -/
def cacheGet (store : CacheStore) (k : CacheParams) : Option String :=
  match store with
  | [] => none
  | (k', v) :: rest => if k' = k then some v else cacheGet rest k

/-- Write to the cache store (`InFilesCache.set`). -/
def cacheSet (store : CacheStore) (k : CacheParams) (v : String) : CacheStore :=
  (k, v) :: store

/-- Observable effects of one `compile` call. -/
inductive Event
  | findRoot (root : String)
  | cacheInit
  | diskRead (path : String)
  | cacheRead (key : CacheParams)
  | cacheWrite (key : CacheParams) (value : String)
  | transpileCall (source : String)
deriving DecidableEq, Repr

/-- Errors thrown by the class: `InvalidPathError(path, {context})` and
`TSTranspileError(formattedMessage, filePath, diagnostics, {context})`. -/
inductive CompileError
  | invalidPath (path : String) (context : String)
  | transpileError (message : String) (filePath : String)
      (diagnostics : List String) (context : String)
deriving DecidableEq, Repr

/-- The `context` tag passed to every error constructor in the source. -/
def contextTag : String := "@j.u.p.iter/ts-compiler"

/-- JavaScript truthiness of an optional string argument: `undefined` and
the empty string are falsy (`codeToCompile ? a : b`). -/
def truthyOpt : Option String → Bool
  | none => false
  | some s => !(s == "")

/-- List-level check that `pat` occurs at the head of `l`. -/
def listStartsWith : List Char → List Char → Bool
  | [], _ => true
  | _ :: _, [] => false
  | p :: ps, c :: cs => p == c && listStartsWith ps cs

/-- Replace the first occurrence of `pat` in the character list by `repl`,
as JavaScript `String.prototype.replace` does with a string pattern. -/
def replaceFirstAux (pat repl : List Char) : List Char → List Char
  | [] => []
  | c :: rest =>
      if listStartsWith pat (c :: rest) then repl ++ (c :: rest).drop pat.length
      else c :: replaceFirstAux pat repl rest

/-- JavaScript `s.replace(pat, repl)` with a string pattern: only the first
occurrence is replaced; if `pat` does not occur, `s` is returned unchanged. -/
def jsReplaceFirst (s pat repl : String) : String :=
  String.mk (replaceFirstAux pat.data repl.data s.data)

/-- Split a character list on `'/'` (accumulator holds the reversed current
segment), producing the path segments of the Node POSIX path handling. -/
def splitSlashAux : List Char → List Char → List String
  | cur, [] => [String.mk cur.reverse]
  | cur, c :: cs =>
      if c == '/' then String.mk cur.reverse :: splitSlashAux [] cs
      else splitSlashAux (c :: cur) cs

/-- Whether a POSIX path string is absolute (starts with `'/'`). -/
def isAbsolutePath (p : String) : Bool :=
  match p.data with
  | c :: _ => c == '/'
  | [] => false

/-- Fold path segments, dropping empty and `"."` segments and popping on
`".."`, as Node normalizes an absolute POSIX path. The accumulator holds the
kept segments in reverse. -/
def normSegs : List String → List String → List String
  | acc, [] => acc.reverse
  | acc, seg :: rest =>
      if seg == "" || seg == "." then normSegs acc rest
      else if seg == ".." then normSegs (acc.drop 1) rest
      else normSegs (seg :: acc) rest

/-- Normalize an absolute POSIX path: collapse slashes, resolve `"."` and
`".."`, drop any trailing slash (the root stays `"/"`). -/
def normalizeAbs (p : String) : String :=
  "/" ++ String.intercalate "/" (normSegs [] (splitSlashAux [] p.data))

/-- Node `path.resolve(base, p)` for POSIX paths when `base` is absolute
(the app root path returned by the root locator is always absolute): if `p`
is itself absolute the base is ignored, otherwise `p` is joined onto `base`;
the result is normalized. -/
def pathResolve (base p : String) : String :=
  if isAbsolutePath p then normalizeAbs p
  else normalizeAbs (base ++ "/" ++ p)

/-- Translation of `absolutePathToRelative`: strip the app-root prefix via
JavaScript `String.replace` (first occurrence, anywhere in the string). -/
def absolutePathToRelative (appRootFolderPath pathToModify : String) : String :=
  jsReplaceFirst pathToModify appRootFolderPath ""

/-- Translation of `resolvePathToFile`: strip the root prefix, then
`path.resolve` the result against the root. -/
def resolvePathToFile (appRootFolderPath originalFilePath : String) : String :=
  pathResolve appRootFolderPath (absolutePathToRelative appRootFolderPath originalFilePath)

/-- Translation of `getAppRootFolderPath`: return the memoized
`appRootPath` if present, otherwise call `findPathToFile("package.json")`
(modelled by `env.rootPath`), memoize it, and record the discovery. -/
def getAppRootFolderPath (env : Env) (s : State) : String × State × List Event :=
  match s.appRootPath with
  | some r => (r, s, [])
  | none => (env.rootPath, { s with appRootPath := some env.rootPath },
      [Event.findRoot env.rootPath])

/-- Translation of `initCache`: construct the `InFilesCache` instance once. -/
def initCache (s : State) : State × List Event :=
  if s.diskCacheInit then (s, []) else ({ s with diskCacheInit := true }, [Event.cacheInit])

/-- Translation of `readFile`: `readFileSync(filePath, "utf8")`; on `ENOENT`
throw `InvalidPathError(filePath, {context})`. -/
def readFile (env : Env) (filePath : String) : Except CompileError String :=
  match env.fs filePath with
  | some c => Except.ok c
  | none => Except.error (CompileError.invalidPath filePath contextTag)

/-- Translation of the body of `getCacheParams` once the resolved file path
is known (the path resolution itself, with its root-memoization effect, is
threaded by `compile`): `fileContent` is `codeToCompile` when truthy,
otherwise the disk content at the resolved path; `fileExtension` is `".js"`. -/
def getCacheParams (env : Env) (resolvedFilePath : String) (codeToCompile : Option String) :
    Except CompileError (CacheParams × List Event) :=
  if truthyOpt codeToCompile then
    Except.ok ({ fileContent := codeToCompile.getD "", fileExtension := ".js",
                 filePath := resolvedFilePath }, [])
  else
    match readFile env resolvedFilePath with
    | Except.ok c =>
        Except.ok ({ fileContent := c, fileExtension := ".js",
                     filePath := resolvedFilePath }, [Event.diskRead resolvedFilePath])
    | Except.error e => Except.error e

/-- Source-text acquisition step of `compileTSFile`: `codeToCompile` when
truthy, otherwise `readFile(filePath)` at the original (unresolved) path. -/
def obtainSource (env : Env) (filePath : String) (codeToCompile : Option String) :
    Except CompileError (String × List Event) :=
  if truthyOpt codeToCompile then Except.ok (codeToCompile.getD "", [])
  else
    match readFile env filePath with
    | Except.ok c => Except.ok (c, [Event.diskRead filePath])
    | Except.error e => Except.error e

/-- Outcome of one `compile` call: the returned/thrown value, the instance
state, the cache store, and the trace of observable effects. -/
structure CompileOutcome where
  result : Except CompileError String
  state : State
  store : CacheStore
  trace : List Event
deriving Repr

/-- Translation of `compile`: init the cache, build the cache params
(`getCacheParams` resolves the path, calling `getAppRootFolderPath` twice —
directly and via `absolutePathToRelative`), query the cache and return a
truthy hit, otherwise run `compileTSFile` (source from `codeToCompile` or a
read of the original path, then `ts.transpileModule`; non-empty diagnostics
throw `TSTranspileError` before any cache write), then `diskCache.set` and
return the compiled code. -/
def compile (env : Env) (s : State) (store : CacheStore)
    (filePath : String) (codeToCompile : Option String) : CompileOutcome :=
  let a1 := initCache s
  let a2 := getAppRootFolderPath env a1.1
  let a3 := getAppRootFolderPath env a2.2.1
  let resolvedFilePath := pathResolve a2.1 (absolutePathToRelative a3.1 filePath)
  let sFinal := a3.2.1
  let evPre := a1.2 ++ a2.2.2 ++ a3.2.2
  match getCacheParams env resolvedFilePath codeToCompile with
  | Except.error e => { result := Except.error e, state := sFinal, store := store, trace := evPre }
  | Except.ok (cacheParams, evKey) =>
      let fromCache := cacheGet store cacheParams
      let evGet := evPre ++ evKey ++ [Event.cacheRead cacheParams]
      if truthyOpt fromCache then
        { result := Except.ok (fromCache.getD ""), state := sFinal, store := store,
          trace := evGet }
      else
        match obtainSource env filePath codeToCompile with
        | Except.error e =>
            { result := Except.error e, state := sFinal, store := store, trace := evGet }
        | Except.ok (src, evSrc) =>
            let tr := env.transpile src
            let evT := evGet ++ evSrc ++ [Event.transpileCall src]
            if tr.diagnostics.isEmpty then
              { result := Except.ok tr.outputText, state := sFinal,
                store := cacheSet store cacheParams tr.outputText,
                trace := evT ++ [Event.cacheWrite cacheParams tr.outputText] }
            else
              { result := Except.error (CompileError.transpileError
                  (env.formatDiags filePath tr.diagnostics) filePath tr.diagnostics contextTag),
                state := sFinal, store := store, trace := evT }

/-- The root value any call on state `s` observes: the memoized one, else
the freshly discovered `env.rootPath`. -/
def theRoot (env : Env) (s : State) : String :=
  s.appRootPath.getD env.rootPath

/-- The canonical (resolved) file path a `compile` call on state `s` uses. -/
def resolvedPathOf (env : Env) (s : State) (filePath : String) : String :=
  resolvePathToFile (theRoot env s) filePath

/-- The cache key a `compile` call on state `s` builds, when it builds one. -/
def keyOf (env : Env) (s : State) (filePath : String) (code : Option String) :
    Option CacheParams :=
  match getCacheParams env (resolvedPathOf env s filePath) code with
  | Except.ok (k, _) => some k
  | Except.error _ => none

/-- The source text a `compile` call hands to the transpiler, when it
obtains one. -/
def sourceOf (env : Env) (filePath : String) (code : Option String) : Option String :=
  match obtainSource env filePath code with
  | Except.ok (c, _) => some c
  | Except.error _ => none

/-- Count the events of a trace satisfying a predicate. -/
def countEv (p : Event → Bool) : List Event → Nat
  | [] => 0
  | e :: t => (if p e then 1 else 0) + countEv p t

/-- Count of compiler invocations in a trace. -/
def countTranspiles (t : List Event) : Nat :=
  countEv (fun e => match e with | Event.transpileCall _ => true | _ => false) t

/-- Count of disk reads in a trace. -/
def countDiskReads (t : List Event) : Nat :=
  countEv (fun e => match e with | Event.diskRead _ => true | _ => false) t

/-- Count of cache lookups in a trace. -/
def countCacheReads (t : List Event) : Nat :=
  countEv (fun e => match e with | Event.cacheRead _ => true | _ => false) t

/-- Count of cache writes in a trace. -/
def countCacheWrites (t : List Event) : Nat :=
  countEv (fun e => match e with | Event.cacheWrite _ _ => true | _ => false) t

/-- Count of project-root discoveries in a trace. -/
def countFindRoots (t : List Event) : Nat :=
  countEv (fun e => match e with | Event.findRoot _ => true | _ => false) t

/-- Count of cache-collaborator constructions in a trace. -/
def countCacheInits (t : List Event) : Nat :=
  countEv (fun e => match e with | Event.cacheInit => true | _ => false) t

lemma countEv_append (p : Event → Bool) (a b : List Event) :
    countEv p (a ++ b) = countEv p a + countEv p b := by
  induction a with
  | nil => simp [countEv]
  | cons e t ih => simp [countEv, ih, Nat.add_assoc]

/-- Run a sequence of `compile` calls on one instance, threading state and
store and concatenating the traces. -/
def runCalls (env : Env) : State → CacheStore → List (String × Option String) →
    State × CacheStore × List Event
  | s, store, [] => (s, store, [])
  | s, store, (fp, code) :: rest =>
      let o := compile env s store fp code
      let r := runCalls env o.state o.store rest
      (r.1, r.2.1, o.trace ++ r.2.2)

deriving instance DecidableEq for Except

/-- Trace of the lazy-initialization steps of one `compile` call on state `s`. -/
def preTrace (env : Env) (s : State) : List Event :=
  (if s.diskCacheInit then [] else [Event.cacheInit]) ++
  (if s.appRootPath.isSome then [] else [Event.findRoot env.rootPath])

/-- Instance state after any `compile` call: root memoized, cache constructed. -/
def stateAfter (env : Env) (s : State) : State :=
  { appRootPath := some (theRoot env s), diskCacheInit := true }

/-- Branch-structured restatement of `compile`, used by the proofs below. -/
def compileSpec (env : Env) (s : State) (store : CacheStore)
    (filePath : String) (code : Option String) : CompileOutcome :=
  match getCacheParams env (resolvedPathOf env s filePath) code with
  | Except.error e => ⟨Except.error e, stateAfter env s, store, preTrace env s⟩
  | Except.ok (k, evKey) =>
      if truthyOpt (cacheGet store k) then
        ⟨Except.ok ((cacheGet store k).getD ""), stateAfter env s, store,
          preTrace env s ++ evKey ++ [Event.cacheRead k]⟩
      else
        match obtainSource env filePath code with
        | Except.error e =>
            ⟨Except.error e, stateAfter env s, store,
              preTrace env s ++ evKey ++ [Event.cacheRead k]⟩
        | Except.ok (src, evSrc) =>
            let tr := env.transpile src
            if tr.diagnostics.isEmpty then
              ⟨Except.ok tr.outputText, stateAfter env s, cacheSet store k tr.outputText,
                preTrace env s ++ evKey ++ [Event.cacheRead k] ++ evSrc ++
                  [Event.transpileCall src, Event.cacheWrite k tr.outputText]⟩
            else
              ⟨Except.error (CompileError.transpileError
                  (env.formatDiags filePath tr.diagnostics) filePath tr.diagnostics contextTag),
                stateAfter env s, store,
                preTrace env s ++ evKey ++ [Event.cacheRead k] ++ evSrc ++
                  [Event.transpileCall src]⟩

lemma compile_eq_spec (env : Env) (s : State) (store : CacheStore) (fp : String)
    (code : Option String) : compile env s store fp code = compileSpec env s store fp code := by
  cases s with
  | mk a d =>
      cases a <;> cases d <;>
        simp [compile, compileSpec, initCache, getAppRootFolderPath, theRoot,
              resolvedPathOf, resolvePathToFile, preTrace, stateAfter]

lemma theRoot_stateAfter (env : Env) (s : State) :
    theRoot env (stateAfter env s) = theRoot env s := by
  simp [theRoot, stateAfter]

lemma resolvedPathOf_stateAfter (env : Env) (s : State) (fp : String) :
    resolvedPathOf env (stateAfter env s) fp = resolvedPathOf env s fp := by
  simp [resolvedPathOf, theRoot_stateAfter]

lemma getCacheParams_ok (env : Env) (rp : String) (code : Option String)
    (k : CacheParams) (ev : List Event)
    (h : getCacheParams env rp code = Except.ok (k, ev)) :
    k.fileExtension = ".js" ∧ k.filePath = rp ∧ (ev = [] ∨ ev = [Event.diskRead rp]) := by
  unfold getCacheParams readFile at h
  cases ht : truthyOpt code with
  | true =>
      rw [ht] at h
      simp only [if_pos] at h
      cases h
      simp
  | false =>
      rw [ht] at h
      simp only [if_neg, Bool.false_eq_true, not_false_iff] at h
      cases hfs : env.fs rp with
      | some c => rw [hfs] at h; cases h; simp
      | none => rw [hfs] at h; cases h

lemma obtainSource_ok (env : Env) (fp : String) (code : Option String)
    (src : String) (ev : List Event)
    (h : obtainSource env fp code = Except.ok (src, ev)) :
    ev = [] ∨ ev = [Event.diskRead fp] := by
  unfold obtainSource readFile at h
  cases ht : truthyOpt code with
  | true => rw [ht] at h; simp only [if_pos] at h; cases h; simp
  | false =>
      rw [ht] at h
      simp only [if_neg, Bool.false_eq_true, not_false_iff] at h
      cases hfs : env.fs fp with
      | some c => rw [hfs] at h; cases h; simp
      | none => rw [hfs] at h; cases h

lemma keyOf_some (env : Env) (s : State) (fp : String) (code : Option String)
    (k : CacheParams) (h : keyOf env s fp code = some k) :
    ∃ ev, getCacheParams env (resolvedPathOf env s fp) code = Except.ok (k, ev) := by
  unfold keyOf at h
  cases hg : getCacheParams env (resolvedPathOf env s fp) code with
  | ok p => rw [hg] at h; cases p; simp_all
  | error e => rw [hg] at h; cases h

lemma sourceOf_some (env : Env) (fp : String) (code : Option String)
    (src : String) (h : sourceOf env fp code = some src) :
    ∃ ev, obtainSource env fp code = Except.ok (src, ev) := by
  unfold sourceOf at h
  cases hg : obtainSource env fp code with
  | ok p => rw [hg] at h; cases p; simp_all
  | error e => rw [hg] at h; cases h

lemma counts_preTrace (env : Env) (s : State) :
    countDiskReads (preTrace env s) = 0 ∧ countCacheReads (preTrace env s) = 0 ∧
    countCacheWrites (preTrace env s) = 0 ∧ countTranspiles (preTrace env s) = 0 := by
  unfold preTrace countDiskReads countCacheReads countCacheWrites countTranspiles
  cases s.diskCacheInit <;> cases s.appRootPath.isSome <;>
    simp [countEv, countEv_append]

lemma initCounts_preTrace (env : Env) (s : State) :
    countFindRoots (preTrace env s) = (if s.appRootPath.isSome then 0 else 1) ∧
    countCacheInits (preTrace env s) = (if s.diskCacheInit then 0 else 1) := by
  unfold preTrace countFindRoots countCacheInits
  cases s.diskCacheInit <;> cases s.appRootPath.isSome <;>
    simp [countEv, countEv_append]

lemma counts_keyEv (env : Env) (rp : String) (code : Option String)
    (k : CacheParams) (ev : List Event)
    (h : getCacheParams env rp code = Except.ok (k, ev)) :
    countDiskReads ev ≤ 1 ∧ countCacheReads ev = 0 ∧ countCacheWrites ev = 0 ∧
    countTranspiles ev = 0 ∧ countFindRoots ev = 0 ∧ countCacheInits ev = 0 := by
  rcases (getCacheParams_ok env rp code k ev h).2.2 with he | he <;> subst he <;>
    simp [countDiskReads, countCacheReads, countCacheWrites, countTranspiles,
      countFindRoots, countCacheInits, countEv]

lemma counts_srcEv (env : Env) (fp : String) (code : Option String)
    (src : String) (ev : List Event)
    (h : obtainSource env fp code = Except.ok (src, ev)) :
    countDiskReads ev ≤ 1 ∧ countCacheReads ev = 0 ∧ countCacheWrites ev = 0 ∧
    countTranspiles ev = 0 ∧ countFindRoots ev = 0 ∧ countCacheInits ev = 0 := by
  rcases obtainSource_ok env fp code src ev h with he | he <;> subst he <;>
    simp [countDiskReads, countCacheReads, countCacheWrites, countTranspiles,
      countFindRoots, countCacheInits, countEv]

lemma compile_keyErr (env : Env) (s : State) (store : CacheStore) (fp : String)
    (code : Option String) (e : CompileError)
    (hgcp : getCacheParams env (resolvedPathOf env s fp) code = Except.error e) :
    compile env s store fp code =
      ⟨Except.error e, stateAfter env s, store, preTrace env s⟩ := by
  rw [compile_eq_spec]
  unfold compileSpec
  rw [hgcp]

lemma compile_hit (env : Env) (s : State) (store : CacheStore) (fp : String)
    (code : Option String) (k : CacheParams) (evKey : List Event)
    (hgcp : getCacheParams env (resolvedPathOf env s fp) code = Except.ok (k, evKey))
    (hc : truthyOpt (cacheGet store k) = true) :
    compile env s store fp code =
      ⟨Except.ok ((cacheGet store k).getD ""), stateAfter env s, store,
        preTrace env s ++ evKey ++ [Event.cacheRead k]⟩ := by
  rw [compile_eq_spec]
  unfold compileSpec
  rw [hgcp]
  simp [hc]

lemma compile_srcErr (env : Env) (s : State) (store : CacheStore) (fp : String)
    (code : Option String) (k : CacheParams) (evKey : List Event) (e : CompileError)
    (hgcp : getCacheParams env (resolvedPathOf env s fp) code = Except.ok (k, evKey))
    (hc : truthyOpt (cacheGet store k) = false)
    (hos : obtainSource env fp code = Except.error e) :
    compile env s store fp code =
      ⟨Except.error e, stateAfter env s, store,
        preTrace env s ++ evKey ++ [Event.cacheRead k]⟩ := by
  rw [compile_eq_spec]
  unfold compileSpec
  rw [hgcp]
  simp [hc, hos]

lemma compile_miss_success (env : Env) (s : State) (store : CacheStore) (fp : String)
    (code : Option String) (k : CacheParams) (evKey : List Event)
    (src : String) (evSrc : List Event)
    (hgcp : getCacheParams env (resolvedPathOf env s fp) code = Except.ok (k, evKey))
    (hc : truthyOpt (cacheGet store k) = false)
    (hos : obtainSource env fp code = Except.ok (src, evSrc))
    (hdg : (env.transpile src).diagnostics = []) :
    compile env s store fp code =
      ⟨Except.ok (env.transpile src).outputText, stateAfter env s,
        cacheSet store k (env.transpile src).outputText,
        preTrace env s ++ evKey ++ [Event.cacheRead k] ++ evSrc ++
          [Event.transpileCall src,
           Event.cacheWrite k (env.transpile src).outputText]⟩ := by
  rw [compile_eq_spec]
  unfold compileSpec
  rw [hgcp]
  simp [hc, hos, hdg]

lemma compile_miss_diag (env : Env) (s : State) (store : CacheStore) (fp : String)
    (code : Option String) (k : CacheParams) (evKey : List Event)
    (src : String) (evSrc : List Event)
    (hgcp : getCacheParams env (resolvedPathOf env s fp) code = Except.ok (k, evKey))
    (hc : truthyOpt (cacheGet store k) = false)
    (hos : obtainSource env fp code = Except.ok (src, evSrc))
    (hdg : (env.transpile src).diagnostics ≠ []) :
    compile env s store fp code =
      ⟨Except.error (CompileError.transpileError
          (env.formatDiags fp (env.transpile src).diagnostics) fp
          (env.transpile src).diagnostics contextTag),
        stateAfter env s, store,
        preTrace env s ++ evKey ++ [Event.cacheRead k] ++ evSrc ++
          [Event.transpileCall src]⟩ := by
  rw [compile_eq_spec]
  unfold compileSpec
  rw [hgcp]
  simp [hc, hos, hdg]

lemma countEv_nil (p : Event → Bool) : countEv p [] = 0 := rfl

lemma countEv_cons (p : Event → Bool) (e : Event) (t : List Event) :
    countEv p (e :: t) = (if p e then 1 else 0) + countEv p t := rfl

/-- Witness environment: empty file system, root `/app`, a compiler that
always succeeds with a fixed non-empty output. -/
def wEnvNoFs : Env :=
  { fs := fun _ => none, rootPath := "/app",
    transpile := fun _ => { outputText := "var x = 1;", diagnostics := [] },
    formatDiags := fun _ d => String.intercalate "\n" d }

lemma cacheGet_set_self (store : CacheStore) (k : CacheParams) (v : String) :
    cacheGet (cacheSet store k v) k = some v := by
  simp [cacheGet, cacheSet]

/-- C5: a real-file-mode `compile` call whose resolved path is absent from
the file system fails with `InvalidPathError` carrying the resolved absolute
path and the context tag of the module, leaves the cache store unchanged, and
performs no cache write. -/
theorem compile_missing_file_invalid_path (env : Env) (s : State) (store : CacheStore)
    (fp : String) (code : Option String)
    (hmode : truthyOpt code = false)
    (hfs : env.fs (resolvedPathOf env s fp) = none) :
    (compile env s store fp code).result =
        Except.error (CompileError.invalidPath (resolvedPathOf env s fp) contextTag) ∧
    (compile env s store fp code).store = store ∧
    countCacheWrites (compile env s store fp code).trace = 0 := by
  have h : getCacheParams env (resolvedPathOf env s fp) code =
      Except.error (CompileError.invalidPath (resolvedPathOf env s fp) contextTag) := by
    simp [getCacheParams, readFile, hmode, hfs]
  rw [compile_keyErr env s store fp code _ h]
  refine ⟨rfl, rfl, ?_⟩
  exact (counts_preTrace env s).2.2.1

/-- C5 witness: on an empty file system, compiling `"f.ts"` with no source
text fails with `InvalidPathError "/app/f.ts"` and writes nothing. -/
theorem compile_missing_file_invalid_path_witness :
    truthyOpt none = false ∧
    wEnvNoFs.fs (resolvedPathOf wEnvNoFs state0 "f.ts") = none ∧
    ((compile wEnvNoFs state0 [] "f.ts" none).result =
        Except.error (CompileError.invalidPath (resolvedPathOf wEnvNoFs state0 "f.ts") contextTag) ∧
      (compile wEnvNoFs state0 [] "f.ts" none).store = [] ∧
      countCacheWrites (compile wEnvNoFs state0 [] "f.ts" none).trace = 0) :=
  ⟨rfl, rfl, compile_missing_file_invalid_path wEnvNoFs state0 [] "f.ts" none rfl rfl⟩

/-- Witness environment: compiler that always reports one diagnostic. -/
def wEnvDiag : Env :=
  { fs := fun _ => none, rootPath := "/app",
    transpile := fun _ => { outputText := "", diagnostics := ["E1"] },
    formatDiags := fun _ d => String.intercalate "\n" d }

/-- C1: when the transpiler reports a non-empty diagnostics list, `compile`
fails with `TSTranspileError` carrying the formatted message, the file path
and the raw diagnostics, leaves the store unchanged, and performs no cache
write. -/
theorem compile_diagnostics_fail_no_write (env : Env) (s : State) (store : CacheStore)
    (fp : String) (code : Option String) (k : CacheParams) (src : String)
    (hk : keyOf env s fp code = some k)
    (hmiss : truthyOpt (cacheGet store k) = false)
    (hsrc : sourceOf env fp code = some src)
    (hd : (env.transpile src).diagnostics ≠ []) :
    (compile env s store fp code).result =
      Except.error (CompileError.transpileError
        (env.formatDiags fp (env.transpile src).diagnostics) fp
        (env.transpile src).diagnostics contextTag) ∧
    (compile env s store fp code).store = store ∧
    countCacheWrites (compile env s store fp code).trace = 0 := by
  obtain ⟨evKey, hgcp⟩ := keyOf_some env s fp code k hk
  obtain ⟨evSrc, hos⟩ := sourceOf_some env fp code src hsrc
  rw [compile_miss_diag env s store fp code k evKey src evSrc hgcp hmiss hos hd]
  refine ⟨rfl, rfl, ?_⟩
  obtain ⟨-, -, hw1, -, -, -⟩ := counts_keyEv env (resolvedPathOf env s fp) code k evKey hgcp
  obtain ⟨-, -, hw2, -, -, -⟩ := counts_srcEv env fp code src evSrc hos
  obtain ⟨-, -, hw3, -⟩ := counts_preTrace env s
  unfold countCacheWrites at hw1 hw2 hw3 ⊢
  simp [countEv_append, countEv_cons, countEv_nil, hw1, hw2, hw3]

/-- C1 witness: a compiler reporting diagnostic `"E1"` on virtual source
`"let"` makes `compile` fail with the formatted transpile error and no cache
write. -/
theorem compile_diagnostics_fail_no_write_witness :
    keyOf wEnvDiag state0 "f.ts" (some "let") =
      some { fileContent := "let", fileExtension := ".js", filePath := "/app/f.ts" } ∧
    truthyOpt (cacheGet []
      { fileContent := "let", fileExtension := ".js", filePath := "/app/f.ts" }) = false ∧
    sourceOf wEnvDiag "f.ts" (some "let") = some "let" ∧
    (wEnvDiag.transpile "let").diagnostics ≠ [] ∧
    ((compile wEnvDiag state0 [] "f.ts" (some "let")).result =
        Except.error (CompileError.transpileError
          (wEnvDiag.formatDiags "f.ts" (wEnvDiag.transpile "let").diagnostics) "f.ts"
          (wEnvDiag.transpile "let").diagnostics contextTag) ∧
      (compile wEnvDiag state0 [] "f.ts" (some "let")).store = [] ∧
      countCacheWrites (compile wEnvDiag state0 [] "f.ts" (some "let")).trace = 0) :=
  ⟨by decide, rfl, rfl, by decide,
    compile_diagnostics_fail_no_write wEnvDiag state0 [] "f.ts" (some "let")
      { fileContent := "let", fileExtension := ".js", filePath := "/app/f.ts" } "let"
      (by decide) rfl rfl (by decide)⟩

/-- C4: on a cache hit (the lookup yields a stored non-empty text), `compile`
returns the cached text, the store is unchanged, the compiler is not invoked,
and no cache write occurs. -/
theorem compile_cache_hit_frame (env : Env) (s : State) (store : CacheStore)
    (fp : String) (code : Option String) (k : CacheParams) (v : String)
    (hk : keyOf env s fp code = some k)
    (hv : cacheGet store k = some v)
    (hne : v ≠ "") :
    (compile env s store fp code).result = Except.ok v ∧
    (compile env s store fp code).store = store ∧
    countTranspiles (compile env s store fp code).trace = 0 ∧
    countCacheWrites (compile env s store fp code).trace = 0 := by
  obtain ⟨evKey, hgcp⟩ := keyOf_some env s fp code k hk
  have htr : truthyOpt (cacheGet store k) = true := by
    rw [hv]; simp [truthyOpt, hne]
  rw [compile_hit env s store fp code k evKey hgcp htr]
  obtain ⟨-, -, hw1, ht1, -, -⟩ := counts_keyEv env (resolvedPathOf env s fp) code k evKey hgcp
  obtain ⟨-, -, hw3, ht3⟩ := counts_preTrace env s
  refine ⟨by simp [hv], rfl, ?_, ?_⟩
  · unfold countTranspiles at ht1 ht3 ⊢
    simp [countEv_append, countEv_cons, countEv_nil, ht1, ht3]
  · unfold countCacheWrites at hw1 hw3 ⊢
    simp [countEv_append, countEv_cons, countEv_nil, hw1, hw3]

/-- C4 witness: with the key for virtual source `"src"` mapped to `"out"`,
`compile` returns `"out"` without transpiling or writing. -/
theorem compile_cache_hit_frame_witness :
    keyOf wEnvNoFs state0 "f.ts" (some "src") =
      some { fileContent := "src", fileExtension := ".js", filePath := "/app/f.ts" } ∧
    cacheGet [({ fileContent := "src", fileExtension := ".js", filePath := "/app/f.ts" }, "out")]
      { fileContent := "src", fileExtension := ".js", filePath := "/app/f.ts" } = some "out" ∧
    ((compile wEnvNoFs state0
        [({ fileContent := "src", fileExtension := ".js", filePath := "/app/f.ts" }, "out")]
        "f.ts" (some "src")).result = Except.ok "out" ∧
      (compile wEnvNoFs state0
        [({ fileContent := "src", fileExtension := ".js", filePath := "/app/f.ts" }, "out")]
        "f.ts" (some "src")).store =
        [({ fileContent := "src", fileExtension := ".js", filePath := "/app/f.ts" }, "out")] ∧
      countTranspiles (compile wEnvNoFs state0
        [({ fileContent := "src", fileExtension := ".js", filePath := "/app/f.ts" }, "out")]
        "f.ts" (some "src")).trace = 0 ∧
      countCacheWrites (compile wEnvNoFs state0
        [({ fileContent := "src", fileExtension := ".js", filePath := "/app/f.ts" }, "out")]
        "f.ts" (some "src")).trace = 0) :=
  ⟨by decide, by decide,
    compile_cache_hit_frame wEnvNoFs state0
      [({ fileContent := "src", fileExtension := ".js", filePath := "/app/f.ts" }, "out")]
      "f.ts" (some "src")
      { fileContent := "src", fileExtension := ".js", filePath := "/app/f.ts" } "out"
      (by decide) (by decide) (by decide)⟩

/-- C9: passing the empty string as `sourceText` behaves exactly like
omitting it, because the mode check uses JavaScript truthiness: same result,
same state, same store, same trace. -/
theorem compile_empty_source_like_absent (env : Env) (s : State) (store : CacheStore)
    (fp : String) :
    compile env s store fp (some "") = compile env s store fp none := by
  rw [compile_eq_spec, compile_eq_spec]
  have h1 : getCacheParams env (resolvedPathOf env s fp) (some "") =
      getCacheParams env (resolvedPathOf env s fp) none := by
    simp [getCacheParams, truthyOpt]
  have h2 : obtainSource env fp (some "") = obtainSource env fp none := by
    simp [obtainSource, truthyOpt]
  unfold compileSpec
  rw [h1, h2]

/-- C3: with the discovered root `"/app"` (no trailing separator, as a
directory path), stripping the root prefix from an absolute in-root path
leaves a leading separator, so `path.resolve` discards the root: the
absolute spelling canonicalizes to `"/src/a.ts"` while the equivalent
root-relative spelling canonicalizes to `"/app/src/a.ts"`, and the two
spellings build different cache keys instead of sharing one. -/
theorem path_canonicalization_diverges :
    resolvePathToFile "/app" "/app/src/a.ts" = "/src/a.ts" ∧
    resolvePathToFile "/app" "src/a.ts" = "/app/src/a.ts" ∧
    resolvePathToFile "/app" "/app/src/a.ts" ≠ resolvePathToFile "/app" "src/a.ts" ∧
    keyOf wEnvNoFs state0 "/app/src/a.ts" (some "x") ≠ keyOf wEnvNoFs state0 "src/a.ts" (some "x") := by
  refine ⟨by decide, by decide, by decide, by decide⟩

lemma cacheRead_not_in_preTrace (env : Env) (s : State) (k : CacheParams) :
    Event.cacheRead k ∉ preTrace env s := by
  unfold preTrace
  cases s.diskCacheInit <;> cases s.appRootPath.isSome <;> simp

lemma cacheRead_in_trace (env : Env) (s : State) (store : CacheStore) (fp : String)
    (code : Option String) (k : CacheParams)
    (h : Event.cacheRead k ∈ (compile env s store fp code).trace) :
    keyOf env s fp code = some k := by
  rw [compile_eq_spec] at h
  unfold compileSpec at h
  cases hgcp : getCacheParams env (resolvedPathOf env s fp) code with
  | error e =>
      rw [hgcp] at h
      simp only [] at h
      exact absurd h (cacheRead_not_in_preTrace env s k)
  | ok p =>
      obtain ⟨k0, evKey⟩ := p
      rw [hgcp] at h
      simp only [] at h
      have hpre := cacheRead_not_in_preTrace env s k
      have hkeyev : Event.cacheRead k ∉ evKey := by
        rcases (getCacheParams_ok env (resolvedPathOf env s fp) code k0 evKey hgcp).2.2
          with he | he <;> subst he <;> simp
      have hgoal : keyOf env s fp code = some k0 := by
        unfold keyOf
        rw [hgcp]
      by_cases hc : truthyOpt (cacheGet store k0) = true
      · rw [if_pos hc] at h
        simp [hpre, hkeyev] at h
        subst h
        exact hgoal
      · rw [if_neg hc] at h
        cases hos : obtainSource env fp code with
        | error e =>
            rw [hos] at h
            simp [hpre, hkeyev] at h
            subst h
            exact hgoal
        | ok q =>
            obtain ⟨src, evSrc⟩ := q
            rw [hos] at h
            simp only [] at h
            have hsrcev : Event.cacheRead k ∉ evSrc := by
              rcases obtainSource_ok env fp code src evSrc hos with he | he <;>
                subst he <;> simp
            by_cases hdg : (env.transpile src).diagnostics.isEmpty = true
            · rw [if_pos hdg] at h
              simp [hpre, hkeyev, hsrcev] at h
              subst h
              exact hgoal
            · rw [if_neg hdg] at h
              simp [hpre, hkeyev, hsrcev] at h
              subst h
              exact hgoal

/-- C8: every cache key `compile` hands to the cache collaborator carries
`fileExtension = ".js"`, regardless of the extension of the input file. -/
theorem cache_key_extension_js (env : Env) (s : State) (store : CacheStore)
    (fp : String) (code : Option String) (k : CacheParams)
    (h : Event.cacheRead k ∈ (compile env s store fp code).trace) :
    k.fileExtension = ".js" := by
  obtain ⟨ev, hgcp⟩ := keyOf_some env s fp code k (cacheRead_in_trace env s store fp code k h)
  exact (getCacheParams_ok env (resolvedPathOf env s fp) code k ev hgcp).1

/-- C8 witness: the key looked up when compiling virtual `"f.ts"` (a `.ts`
input) has extension `".js"`. -/
theorem cache_key_extension_js_witness :
    Event.cacheRead { fileContent := "src", fileExtension := ".js", filePath := "/app/f.ts" }
      ∈ (compile wEnvNoFs state0 [] "f.ts" (some "src")).trace ∧
    CacheParams.fileExtension
      { fileContent := "src", fileExtension := ".js", filePath := "/app/f.ts" } = ".js" :=
  ⟨by decide,
    cache_key_extension_js wEnvNoFs state0 [] "f.ts" (some "src")
      { fileContent := "src", fileExtension := ".js", filePath := "/app/f.ts" } (by decide)⟩

lemma compile_state_after (env : Env) (s : State) (store : CacheStore) (fp : String)
    (code : Option String) :
    (compile env s store fp code).state = stateAfter env s := by
  rw [compile_eq_spec]
  unfold compileSpec
  split
  · rfl
  · split
    · rfl
    · split
      · rfl
      · dsimp only
        split <;> rfl

lemma compile_trace_decomp (env : Env) (s : State) (store : CacheStore) (fp : String)
    (code : Option String) :
    ∃ rest : List Event, (compile env s store fp code).trace = preTrace env s ++ rest ∧
      countFindRoots rest = 0 ∧ countCacheInits rest = 0 ∧
      countDiskReads rest ≤ 2 ∧ countCacheReads rest ≤ 1 ∧
      countCacheWrites rest ≤ 1 ∧ countTranspiles rest ≤ 1 := by
  rw [compile_eq_spec]
  unfold compileSpec
  split
  · refine ⟨[], by simp, rfl, rfl, ?_, ?_, ?_, ?_⟩ <;> simp [countDiskReads,
      countCacheReads, countCacheWrites, countTranspiles, countEv_nil]
  · rename_i p k evKey heq
    obtain ⟨hdk, hcr, hcw, htp, hfr, hci⟩ :=
      counts_keyEv env (resolvedPathOf env s fp) code k evKey heq
    split
    · refine ⟨evKey ++ [Event.cacheRead k], by simp [List.append_assoc], ?_, ?_, ?_, ?_, ?_, ?_⟩
      · unfold countFindRoots at hfr ⊢
        simp [countEv_append, countEv_cons, countEv_nil, hfr]
      · unfold countCacheInits at hci ⊢
        simp [countEv_append, countEv_cons, countEv_nil, hci]
      · unfold countDiskReads at hdk ⊢
        simp [countEv_append, countEv_cons, countEv_nil] <;> omega
      · unfold countCacheReads at hcr ⊢
        simp [countEv_append, countEv_cons, countEv_nil, hcr]
      · unfold countCacheWrites at hcw ⊢
        simp [countEv_append, countEv_cons, countEv_nil, hcw]
      · unfold countTranspiles at htp ⊢
        simp [countEv_append, countEv_cons, countEv_nil, htp]
    · split
      · refine ⟨evKey ++ [Event.cacheRead k], by simp [List.append_assoc], ?_, ?_, ?_, ?_, ?_, ?_⟩
        · unfold countFindRoots at hfr ⊢
          simp [countEv_append, countEv_cons, countEv_nil, hfr]
        · unfold countCacheInits at hci ⊢
          simp [countEv_append, countEv_cons, countEv_nil, hci]
        · unfold countDiskReads at hdk ⊢
          simp [countEv_append, countEv_cons, countEv_nil] <;> omega
        · unfold countCacheReads at hcr ⊢
          simp [countEv_append, countEv_cons, countEv_nil, hcr]
        · unfold countCacheWrites at hcw ⊢
          simp [countEv_append, countEv_cons, countEv_nil, hcw]
        · unfold countTranspiles at htp ⊢
          simp [countEv_append, countEv_cons, countEv_nil, htp]
      · rename_i q src evSrc hos
        obtain ⟨hdk2, hcr2, hcw2, htp2, hfr2, hci2⟩ :=
          counts_srcEv env fp code src evSrc hos
        dsimp only
        split
        · refine ⟨evKey ++ [Event.cacheRead k] ++ evSrc ++
              [Event.transpileCall src,
               Event.cacheWrite k (env.transpile src).outputText],
            by simp [List.append_assoc], ?_, ?_, ?_, ?_, ?_, ?_⟩
          · unfold countFindRoots at hfr hfr2 ⊢
            simp [countEv_append, countEv_cons, countEv_nil, hfr, hfr2]
          · unfold countCacheInits at hci hci2 ⊢
            simp [countEv_append, countEv_cons, countEv_nil, hci, hci2]
          · unfold countDiskReads at hdk hdk2 ⊢
            simp [countEv_append, countEv_cons, countEv_nil] <;> omega
          · unfold countCacheReads at hcr hcr2 ⊢
            simp [countEv_append, countEv_cons, countEv_nil, hcr, hcr2]
          · unfold countCacheWrites at hcw hcw2 ⊢
            simp [countEv_append, countEv_cons, countEv_nil, hcw, hcw2]
          · unfold countTranspiles at htp htp2 ⊢
            simp [countEv_append, countEv_cons, countEv_nil, htp, htp2]
        · refine ⟨evKey ++ [Event.cacheRead k] ++ evSrc ++ [Event.transpileCall src],
            by simp [List.append_assoc], ?_, ?_, ?_, ?_, ?_, ?_⟩
          · unfold countFindRoots at hfr hfr2 ⊢
            simp [countEv_append, countEv_cons, countEv_nil, hfr, hfr2]
          · unfold countCacheInits at hci hci2 ⊢
            simp [countEv_append, countEv_cons, countEv_nil, hci, hci2]
          · unfold countDiskReads at hdk hdk2 ⊢
            simp [countEv_append, countEv_cons, countEv_nil] <;> omega
          · unfold countCacheReads at hcr hcr2 ⊢
            simp [countEv_append, countEv_cons, countEv_nil, hcr, hcr2]
          · unfold countCacheWrites at hcw hcw2 ⊢
            simp [countEv_append, countEv_cons, countEv_nil, hcw, hcw2]
          · unfold countTranspiles at htp htp2 ⊢
            simp [countEv_append, countEv_cons, countEv_nil, htp, htp2]

lemma compile_initCounts (env : Env) (s : State) (store : CacheStore) (fp : String)
    (code : Option String) :
    countFindRoots (compile env s store fp code).trace =
      (if s.appRootPath.isSome then 0 else 1) ∧
    countCacheInits (compile env s store fp code).trace =
      (if s.diskCacheInit then 0 else 1) := by
  obtain ⟨rest, htr, hfr, hci, -, -, -, -⟩ := compile_trace_decomp env s store fp code
  obtain ⟨hf, hc⟩ := initCounts_preTrace env s
  rw [htr]
  constructor
  · unfold countFindRoots at hfr hf ⊢
    simp [countEv_append, hfr, hf]
  · unfold countCacheInits at hci hc ⊢
    simp [countEv_append, hci, hc]

lemma runCalls_warm (env : Env) (r : String) (reqs : List (String × Option String)) :
    ∀ store : CacheStore,
      countFindRoots (runCalls env { appRootPath := some r, diskCacheInit := true }
        store reqs).2.2 = 0 ∧
      countCacheInits (runCalls env { appRootPath := some r, diskCacheInit := true }
        store reqs).2.2 = 0 ∧
      (runCalls env { appRootPath := some r, diskCacheInit := true } store reqs).1 =
        { appRootPath := some r, diskCacheInit := true } := by
  induction reqs with
  | nil => intro store; exact ⟨rfl, rfl, rfl⟩
  | cons hd tl ih =>
      intro store
      obtain ⟨fp, code⟩ := hd
      have hstate : (compile env { appRootPath := some r, diskCacheInit := true }
          store fp code).state = { appRootPath := some r, diskCacheInit := true } := by
        rw [compile_state_after]
        simp [stateAfter, theRoot]
      obtain ⟨hf, hc⟩ := compile_initCounts env
        { appRootPath := some r, diskCacheInit := true } store fp code
      simp only [Option.isSome_some, if_true, if_pos] at hf hc
      obtain ⟨ih1, ih2, ih3⟩ := ih (compile env
        { appRootPath := some r, diskCacheInit := true } store fp code).store
      refine ⟨?_, ?_, ?_⟩
      · show countFindRoots ((compile env { appRootPath := some r, diskCacheInit := true }
            store fp code).trace ++ _) = 0
        rw [hstate] at *
        unfold countFindRoots at hf ih1 ⊢
        simp [countEv_append, hf, ih1]
      · show countCacheInits ((compile env { appRootPath := some r, diskCacheInit := true }
            store fp code).trace ++ _) = 0
        rw [hstate] at *
        unfold countCacheInits at hc ih2 ⊢
        simp [countEv_append, hc, ih2]
      · show (runCalls env (compile env { appRootPath := some r, diskCacheInit := true }
            store fp code).state _ tl).1 = _
        rw [hstate]
        exact ih3

/-- C7: over any sequence of `compile` calls on a fresh instance, the
project root is discovered at most once and the cache collaborator is
constructed at most once; after any non-empty sequence the instance holds
the memoized root and the constructed cache for its lifetime. -/
theorem root_discovery_and_cache_init_once (env : Env) (store : CacheStore)
    (reqs : List (String × Option String)) :
    countFindRoots (runCalls env state0 store reqs).2.2 ≤ 1 ∧
    countCacheInits (runCalls env state0 store reqs).2.2 ≤ 1 ∧
    (reqs = [] ∨ (runCalls env state0 store reqs).1 =
      { appRootPath := some env.rootPath, diskCacheInit := true }) := by
  cases reqs with
  | nil => exact ⟨by simp [runCalls, countFindRoots, countEv_nil],
      by simp [runCalls, countCacheInits, countEv_nil], Or.inl rfl⟩
  | cons hd tl =>
      obtain ⟨fp, code⟩ := hd
      have hstate : (compile env state0 store fp code).state =
          { appRootPath := some env.rootPath, diskCacheInit := true } := by
        rw [compile_state_after]
        simp [stateAfter, theRoot, state0]
      have hf : countFindRoots (compile env state0 store fp code).trace = 1 := by
        rw [(compile_initCounts env state0 store fp code).1]; decide
      have hc : countCacheInits (compile env state0 store fp code).trace = 1 := by
        rw [(compile_initCounts env state0 store fp code).2]; decide
      obtain ⟨w1, w2, w3⟩ := runCalls_warm env env.rootPath tl
        (compile env state0 store fp code).store
      refine ⟨?_, ?_, Or.inr ?_⟩
      · show countFindRoots ((compile env state0 store fp code).trace ++ _) ≤ 1
        rw [hstate]
        unfold countFindRoots at hf w1 ⊢
        simp [countEv_append, hf, w1]
      · show countCacheInits ((compile env state0 store fp code).trace ++ _) ≤ 1
        rw [hstate]
        unfold countCacheInits at hc w2 ⊢
        simp [countEv_append, hc, w2]
      · show (runCalls env (compile env state0 store fp code).state _ tl).1 = _
        rw [hstate]
        exact w3

/-- Counterexample environment for the disk-read bound: the file exists both
at its resolved path `/app/a.ts` and at the original relative path `a.ts`
(as `readFileSync` would resolve it against a working directory of `/app`). -/
def wEnvTwoReads : Env :=
  { fs := fun p => if p == "/app/a.ts" then some "let x = 1" else
      if p == "a.ts" then some "let x = 1" else none,
    rootPath := "/app",
    transpile := fun _ => { outputText := "var x = 1;", diagnostics := [] },
    formatDiags := fun _ d => String.intercalate "\n" d }

/-- C6 counterexample: a real-file-mode cache miss performs two disk reads —
one at the resolved path while building the cache key (`getCacheParams`) and
a second at the original path inside `compileTSFile` — refuting the
at-most-one-disk-read bound. -/
theorem compile_two_disk_reads_counterexample :
    countDiskReads (compile wEnvTwoReads state0 [] "a.ts" none).trace = 2 ∧
    ¬ countDiskReads (compile wEnvTwoReads state0 [] "a.ts" none).trace ≤ 1 :=
  ⟨by decide, by decide⟩

/-- C6 amended: every `compile` call performs at most two disk reads (one
while building the cache key, at most one more when re-reading the source
for compilation), at most one cache read and at most one cache write, and
mutates no instance state beyond memoizing the project root and constructing
the cache handle. -/
theorem compile_effect_bounds (env : Env) (s : State) (store : CacheStore)
    (fp : String) (code : Option String) :
    countDiskReads (compile env s store fp code).trace ≤ 2 ∧
    countCacheReads (compile env s store fp code).trace ≤ 1 ∧
    countCacheWrites (compile env s store fp code).trace ≤ 1 ∧
    (compile env s store fp code).state =
      { appRootPath := some (theRoot env s), diskCacheInit := true } := by
  obtain ⟨rest, htr, -, -, hdk, hcr, hcw, -⟩ := compile_trace_decomp env s store fp code
  obtain ⟨hp1, hp2, hp3, -⟩ := counts_preTrace env s
  refine ⟨?_, ?_, ?_, compile_state_after env s store fp code⟩
  · rw [htr]
    unfold countDiskReads at hp1 hdk ⊢
    rw [countEv_append, hp1]
    simpa using hdk
  · rw [htr]
    unfold countCacheReads at hp2 hcr ⊢
    rw [countEv_append, hp2]
    simpa using hcr
  · rw [htr]
    unfold countCacheWrites at hp3 hcw ⊢
    rw [countEv_append, hp3]
    simpa using hcw

/-- Counterexample environment whose compiler succeeds with empty output. -/
def wEnvEmptyOut : Env :=
  { fs := fun _ => none, rootPath := "/app",
    transpile := fun _ => { outputText := "", diagnostics := [] },
    formatDiags := fun _ d => String.intercalate "\n" d }

/-- C2 counterexample: with a compiler whose successful output is the empty
string, the first call succeeds, but its cached value is falsy, so the
second identical call misses the cache again and the compiler is invoked
twice across the two calls. -/
theorem compile_twice_empty_output_counterexample :
    (compile wEnvEmptyOut state0 [] "f.ts" (some "x")).result = Except.ok "" ∧
    countTranspiles ((compile wEnvEmptyOut state0 [] "f.ts" (some "x")).trace ++
      (compile wEnvEmptyOut (compile wEnvEmptyOut state0 [] "f.ts" (some "x")).state
        (compile wEnvEmptyOut state0 [] "f.ts" (some "x")).store "f.ts" (some "x")).trace) = 2 ∧
    ¬ countTranspiles ((compile wEnvEmptyOut state0 [] "f.ts" (some "x")).trace ++
      (compile wEnvEmptyOut (compile wEnvEmptyOut state0 [] "f.ts" (some "x")).state
        (compile wEnvEmptyOut state0 [] "f.ts" (some "x")).store "f.ts" (some "x")).trace) ≤ 1 :=
  ⟨by decide, by decide, by decide⟩

/-- C2 amended: two consecutive `compile` calls with identical arguments,
the first of which succeeds, return identical output text; and when that
output is non-empty, the compiler is invoked at most once across the two
calls (the second call is a cache hit). An empty successful output defeats
the truthiness-based hit test, so only the output-equality holds there. -/
theorem compile_idempotent (env : Env) (s : State) (store : CacheStore)
    (fp : String) (code : Option String) (t : String)
    (h1 : (compile env s store fp code).result = Except.ok t) :
    (compile env (compile env s store fp code).state
      (compile env s store fp code).store fp code).result = Except.ok t ∧
    (t ≠ "" → countTranspiles ((compile env s store fp code).trace ++
      (compile env (compile env s store fp code).state
        (compile env s store fp code).store fp code).trace) ≤ 1) := by
  cases hgcp : getCacheParams env (resolvedPathOf env s fp) code with
  | error e =>
      rw [compile_keyErr env s store fp code e hgcp] at h1
      cases h1
  | ok p =>
      obtain ⟨k, evKey⟩ := p
      have hgcp2 : getCacheParams env (resolvedPathOf env (stateAfter env s) fp) code =
          Except.ok (k, evKey) := by rw [resolvedPathOf_stateAfter]; exact hgcp
      by_cases hc : truthyOpt (cacheGet store k) = true
      · rw [compile_hit env s store fp code k evKey hgcp hc] at h1 ⊢
        dsimp only at h1 ⊢
        rw [compile_hit env (stateAfter env s) store fp code k evKey hgcp2 hc]
        refine ⟨h1, fun hne => ?_⟩
        obtain ⟨-, -, -, ht1, -, -⟩ :=
          counts_keyEv env (resolvedPathOf env s fp) code k evKey hgcp
        obtain ⟨-, -, -, ht0⟩ := counts_preTrace env s
        obtain ⟨-, -, -, ht0'⟩ := counts_preTrace env (stateAfter env s)
        unfold countTranspiles at ht1 ht0 ht0' ⊢
        simp [countEv_append, countEv_cons, countEv_nil, ht1, ht0, ht0']
      · simp only [Bool.not_eq_true] at hc
        cases hos : obtainSource env fp code with
        | error e =>
            rw [compile_srcErr env s store fp code k evKey e hgcp hc hos] at h1
            cases h1
        | ok q =>
            obtain ⟨src, evSrc⟩ := q
            by_cases hdg : (env.transpile src).diagnostics = []
            · rw [compile_miss_success env s store fp code k evKey src evSrc
                hgcp hc hos hdg] at h1 ⊢
              dsimp only at h1 ⊢
              injection h1 with h1
              subst h1
              by_cases hne : (env.transpile src).outputText = ""
              · have hc2 : truthyOpt (cacheGet
                    (cacheSet store k (env.transpile src).outputText) k) = false := by
                  rw [cacheGet_set_self, hne]
                  rfl
                rw [compile_miss_success env (stateAfter env s)
                    (cacheSet store k (env.transpile src).outputText) fp code k evKey
                    src evSrc hgcp2 hc2 hos hdg]
                exact ⟨rfl, fun hne2 => absurd hne hne2⟩
              · have hc2 : truthyOpt (cacheGet
                    (cacheSet store k (env.transpile src).outputText) k) = true := by
                  rw [cacheGet_set_self]
                  simp [truthyOpt, hne]
                rw [compile_hit env (stateAfter env s)
                    (cacheSet store k (env.transpile src).outputText) fp code k evKey
                    hgcp2 hc2]
                refine ⟨by simp [cacheGet_set_self], fun _ => ?_⟩
                obtain ⟨-, -, -, ht1, -, -⟩ :=
                  counts_keyEv env (resolvedPathOf env s fp) code k evKey hgcp
                obtain ⟨-, -, -, ht2, -, -⟩ := counts_srcEv env fp code src evSrc hos
                obtain ⟨-, -, -, ht0⟩ := counts_preTrace env s
                obtain ⟨-, -, -, ht0'⟩ := counts_preTrace env (stateAfter env s)
                unfold countTranspiles at ht1 ht2 ht0 ht0' ⊢
                simp [countEv_append, countEv_cons, countEv_nil, ht1, ht2, ht0, ht0']
            · rw [compile_miss_diag env s store fp code k evKey src evSrc
                hgcp hc hos hdg] at h1
              cases h1

/-- C2 witness: compiling virtual source `"src"` twice returns
`"var x = 1;"` both times with a single compiler invocation. -/
theorem compile_idempotent_witness :
    (compile wEnvNoFs state0 [] "f.ts" (some "src")).result = Except.ok "var x = 1;" ∧
    ((compile wEnvNoFs (compile wEnvNoFs state0 [] "f.ts" (some "src")).state
        (compile wEnvNoFs state0 [] "f.ts" (some "src")).store "f.ts" (some "src")).result =
          Except.ok "var x = 1;" ∧
      ("var x = 1;" ≠ "" → countTranspiles ((compile wEnvNoFs state0 [] "f.ts" (some "src")).trace ++
        (compile wEnvNoFs (compile wEnvNoFs state0 [] "f.ts" (some "src")).state
          (compile wEnvNoFs state0 [] "f.ts" (some "src")).store "f.ts" (some "src")).trace) ≤ 1)) :=
  ⟨by decide, compile_idempotent wEnvNoFs state0 [] "f.ts" (some "src") "var x = 1;" (by decide)⟩

/-- C10 counterexample: when the cached value under the key is the empty string,
the lookup is treated as a miss and the compiler is invoked; but when the
compiler reports diagnostics, the cache is NOT written again, refuting the
unconditional rewrite part of the claim. -/
theorem compile_empty_cached_no_rewrite_counterexample :
    cacheGet [({ fileContent := "let", fileExtension := ".js", filePath := "/app/f.ts" }, "")]
      { fileContent := "let", fileExtension := ".js", filePath := "/app/f.ts" } = some "" ∧
    countTranspiles (compile wEnvDiag state0
      [({ fileContent := "let", fileExtension := ".js", filePath := "/app/f.ts" }, "")]
      "f.ts" (some "let")).trace = 1 ∧
    countCacheWrites (compile wEnvDiag state0
      [({ fileContent := "let", fileExtension := ".js", filePath := "/app/f.ts" }, "")]
      "f.ts" (some "let")).trace = 0 :=
  ⟨by decide, by decide, by decide⟩

/-- C10 amended: a cache lookup that returns the empty string is treated as
a miss: the compiler is invoked exactly once, the cached empty string is
never returned as the result of the call directly from the cache, and if the
compiler reports no diagnostics the cache is written again under the same
key and the fresh output is returned. -/
theorem compile_empty_cached_treated_as_miss (env : Env) (s : State) (store : CacheStore)
    (fp : String) (code : Option String) (k : CacheParams) (src : String)
    (hk : keyOf env s fp code = some k)
    (hv : cacheGet store k = some "")
    (hsrc : sourceOf env fp code = some src) :
    countTranspiles (compile env s store fp code).trace = 1 ∧
    ((env.transpile src).diagnostics = [] →
      (compile env s store fp code).result = Except.ok (env.transpile src).outputText ∧
      Event.cacheWrite k (env.transpile src).outputText ∈
        (compile env s store fp code).trace) := by
  obtain ⟨evKey, hgcp⟩ := keyOf_some env s fp code k hk
  obtain ⟨evSrc, hos⟩ := sourceOf_some env fp code src hsrc
  have hmiss : truthyOpt (cacheGet store k) = false := by rw [hv]; rfl
  obtain ⟨-, -, -, ht1, -, -⟩ := counts_keyEv env (resolvedPathOf env s fp) code k evKey hgcp
  obtain ⟨-, -, -, ht2, -, -⟩ := counts_srcEv env fp code src evSrc hos
  obtain ⟨-, -, -, ht0⟩ := counts_preTrace env s
  by_cases hdg : (env.transpile src).diagnostics = []
  · rw [compile_miss_success env s store fp code k evKey src evSrc hgcp hmiss hos hdg]
    dsimp only
    constructor
    · unfold countTranspiles at ht1 ht2 ht0 ⊢
      simp [countEv_append, countEv_cons, countEv_nil, ht1, ht2, ht0]
    · exact fun _ => ⟨rfl, by simp⟩
  · rw [compile_miss_diag env s store fp code k evKey src evSrc hgcp hmiss hos hdg]
    dsimp only
    constructor
    · unfold countTranspiles at ht1 ht2 ht0 ⊢
      simp [countEv_append, countEv_cons, countEv_nil, ht1, ht2, ht0]
    · exact fun hdg0 => absurd hdg0 hdg

/-- C10 witness: with the key for virtual source `"src"` cached as the empty
string and a clean compiler, the call transpiles once, returns the fresh
output, and rewrites the cache under the same key. -/
theorem compile_empty_cached_treated_as_miss_witness :
    keyOf wEnvNoFs state0 "f.ts" (some "src") =
      some { fileContent := "src", fileExtension := ".js", filePath := "/app/f.ts" } ∧
    cacheGet [({ fileContent := "src", fileExtension := ".js", filePath := "/app/f.ts" }, "")]
      { fileContent := "src", fileExtension := ".js", filePath := "/app/f.ts" } = some "" ∧
    sourceOf wEnvNoFs "f.ts" (some "src") = some "src" ∧
    (countTranspiles (compile wEnvNoFs state0
        [({ fileContent := "src", fileExtension := ".js", filePath := "/app/f.ts" }, "")]
        "f.ts" (some "src")).trace = 1 ∧
      ((wEnvNoFs.transpile "src").diagnostics = [] →
        (compile wEnvNoFs state0
          [({ fileContent := "src", fileExtension := ".js", filePath := "/app/f.ts" }, "")]
          "f.ts" (some "src")).result = Except.ok (wEnvNoFs.transpile "src").outputText ∧
        Event.cacheWrite { fileContent := "src", fileExtension := ".js", filePath := "/app/f.ts" }
          (wEnvNoFs.transpile "src").outputText ∈
          (compile wEnvNoFs state0
            [({ fileContent := "src", fileExtension := ".js", filePath := "/app/f.ts" }, "")]
            "f.ts" (some "src")).trace)) :=
  ⟨by decide, by decide, rfl,
    compile_empty_cached_treated_as_miss wEnvNoFs state0
      [({ fileContent := "src", fileExtension := ".js", filePath := "/app/f.ts" }, "")]
      "f.ts" (some "src")
      { fileContent := "src", fileExtension := ".js", filePath := "/app/f.ts" } "src"
      (by decide) (by decide) rfl⟩
